import Mathlib

/-!
Verification of the text-shaping core (contextual tokenizer and bidi driver)
of the opentype-next repository, as a shallow embedding in Lean 4.

The embedding mirrors the source files `src/tokenizer.js` (the `Token`,
`ContextRange`, `ContextChecker`, `ContextParams`, `Event` classes and the
`Tokenizer` class) and `src/bidi.js` (the `Bidi` class and its helper
functions).  JavaScript arrays become `List`, JS `splice`/`slice` are
modelled with their index-clamping semantics, and the dynamic values that the
source stores in a token's state map are modelled by the inductive `JSVal`.

Event dispatch: the default `Tokenizer` (constructed without user handlers)
auto-subscribes its own `updateContextsRanges` method to the six mutating
events.  We model a dispatch as (a) appending a log entry that records the
event name and its arguments - an entry in the log means exactly that every
handler subscribed to that event was invoked with those arguments - and
(b) running `updateContextsRanges` when the event is one of the six
auto-subscribed ones.  The `updateContextsRanges` event itself has no
auto-subscribers, so it only logs.

Deviations forced by the typed setting, none observable by the claims:
  * `openRange` holds only the start index (the source stores a
    `ContextRange` whose `endOffset` is `null` and only ever reads its
    `startIndex`).
  * FAIL records are modelled as a failure constructor carrying the message
    string; apostrophes and quotes inside the source's message strings are
    elided from the message text.
  * Values that the source checks with `instanceof Token` are modelled by
    `TVal` (a token or a non-token); `isNaN` on our integer-valued indices
    is always false, and the `NaN` offset case of `removeRange` is not in
    the modelled argument domain (`JsArg` covers number, `null`,
    `undefined`, which are the cases the claims are about).
-/

/-- A JavaScript value as stored in a token's state map. -/
inductive JSVal where
  | vNum (n : Int)
  | vStr (s : String)
  | vBool (b : Bool)
  | vNull
  | vUndef
deriving DecidableEq

/-- JavaScript truthiness of a `JSVal` (the source uses `value || null`). -/
def JSVal.truthy : JSVal → Bool
  | .vNum n => n != 0
  | .vStr s => s != ""
  | .vBool b => b
  | .vNull => false
  | .vUndef => false

/-- Source `Token` from tokenizer.js: one input code point with its state map. -/
structure Token where
  char : Char
  state : List (String × JSVal)
  activeState : Option (String × JSVal)
deriving DecidableEq

/-- JS object property write: replace the binding if the key exists, else append. -/
def assocSet (l : List (String × JSVal)) (k : String) (v : JSVal) :
    List (String × JSVal) :=
  if l.any (fun p => p.1 == k) then
    l.map (fun p => if p.1 == k then (k, v) else p)
  else l ++ [(k, v)]

/-- Source `Token.setState`: writes `state[key] = value` and records it as the
`activeState`; returns the new token and the active state pair. -/
def Token.setState (t : Token) (k : String) (v : JSVal) :
    Token × (String × JSVal) :=
  (⟨t.char, assocSet t.state k v, some (k, v)⟩, (k, v))

/-- Source `Token.getState`: `return this.state[stateId] || null` - an absent key
yields `undefined`, and any falsy stored value is replaced by `null`. -/
def Token.getState (t : Token) (k : String) : JSVal :=
  match t.state.find? (fun p => p.1 == k) with
  | some p => if p.2.truthy then p.2 else JSVal.vNull
  | none => JSVal.vNull

/-- Source `ContextRange` from tokenizer.js (completed ranges carry a `rangeId`
assigned by `setEndOffset`). -/
structure ContextRange where
  startIndex : Nat
  endOffset : Int
  contextName : String
  rangeId : String
deriving DecidableEq

/-- Source `ContextParams` from tokenizer.js: the per-position view of the stream. -/
structure ContextParams where
  context : List Char
  index : Nat
  length : Nat
  current : Option Char
  backtrack : List Char
  lookahead : List Char
deriving DecidableEq

/-- The `ContextParams` constructor: `current = context[i]`,
`backtrack = context.slice(0, i)`, `lookahead = context.slice(i+1)`. -/
def ContextParams.make (context : List Char) (i : Nat) : ContextParams :=
  ⟨context, i, context.length, context[i]?, context.take i, context.drop (i + 1)⟩

/-- Source `ContextParams.get(offset)`: `0` gives the current item, a negative
offset indexes the backtrack from its tail via `backtrack.slice(offset)[0]`,
a positive offset indexes the lookahead via `lookahead[offset-1]`, anything
else yields `null` (modelled as `none`). -/
def ContextParams.get (p : ContextParams) (offset : Int) : Option Char :=
  if offset = 0 then p.current
  else if offset < 0 ∧ offset.natAbs ≤ p.backtrack.length then
    (p.backtrack.drop (p.backtrack.length - offset.natAbs)).head?
  else if 0 < offset ∧ offset ≤ (p.lookahead.length : Int) then
    p.lookahead[(offset - 1).toNat]?
  else none

/-- Source `ContextChecker` from tokenizer.js.  `openRange` keeps only the start
index of the currently open range (the source stores a range whose
`endOffset` is `null` and reads only its `startIndex`). -/
structure ContextChecker where
  contextName : String
  checkStart : ContextParams → Bool
  checkEnd : ContextParams → Bool
  openRange : Option Nat
  ranges : List ContextRange

/-- A JS argument that may be a number, `null` or `undefined` (the offset
argument of `removeRange`/`replaceRange`). -/
inductive JsArg where
  | num (n : Int)
  | jsNull
  | undef
deriving DecidableEq

/-- JS `isNaN` on the modelled argument domain: `isNaN(undefined)` is true,
`isNaN(null)` and `isNaN(number)` are false. -/
def JsArg.isNaNb : JsArg → Bool
  | .undef => true
  | _ => false

/-- JS `ToIntegerOrInfinity` as used by `Array.prototype.splice` on its
`deleteCount` argument: `null` and `undefined` convert to `0`. -/
def JsArg.toInteger : JsArg → Int
  | .num n => n
  | .jsNull => 0
  | .undef => 0

/-- Relative-index resolution of JS `slice`/`splice`: negative indices count
from the end (clamped at 0), non-negative ones are clamped at the length. -/
def clampIdx (len : Nat) (i : Int) : Nat :=
  if i < 0 then (i + len).toNat else min i.toNat len

/-- Source `Array.prototype.slice(a, b)`. -/
def jsSlice (l : List α) (a b : Int) : List α :=
  (l.take (clampIdx l.length b)).drop (clampIdx l.length a)

/-- Source `Array.prototype.splice(start, deleteCount, ...items)`: returns the
removed elements and the mutated array. -/
def jsSplice (l : List α) (start deleteCount : Int) (items : List α) :
    List α × List α :=
  let s := clampIdx l.length start
  let d := min deleteCount.toNat (l.length - s)
  ((l.drop s).take d, l.take s ++ items ++ l.drop (s + d))

/-- A value passed where the source expects tokens: either an actual
`Token` or some non-token value (rejected by the `instanceof Token` guards). -/
inductive TVal where
  | tok (t : Token)
  | notTok
deriving DecidableEq

/-- Source `instanceof Token`. -/
def TVal.isTok : TVal → Bool
  | .tok _ => true
  | .notTok => false

/-- The tokens of a list of `TVal`s that are actual tokens. -/
def extractToks (l : List TVal) : List Token :=
  l.filterMap fun v => match v with | .tok t => some t | .notTok => none

/-- The return value of a `Tokenizer` edit operation: an array of tokens, a
pair of arrays (`replaceRange`), or a FAIL record with its message. -/
inductive OpRet where
  | flat (ts : List Token)
  | nested (a b : List Token)
  | failR (msg : String)
deriving DecidableEq

/-- Source `hasFAILObject` from `composeRUD`: only FAIL records satisfy it. -/
def OpRet.isFail : OpRet → Bool
  | .failR _ => true
  | _ => false

/-- The core event names of the tokenizer's event record. -/
inductive EventName where
  | startE | endE | nextE | newTokenE | contextStartE | contextEndE
  | insertTokenE | removeTokenE | removeRangeE | replaceTokenE
  | replaceRangeE | composeRUDE | updateContextsRangesE
deriving DecidableEq

/-- One dispatched event together with its arguments.  An entry in a
tokenizer's log means that this event was dispatched (all its subscribers
were invoked) with these arguments.  `replaceTokenOne` and
`replaceTokenRange` are the two call sites that dispatch the
`replaceToken` event with differently-shaped argument lists; the
`replaceRange` entry exists as an event but is never emitted by any source
function. -/
inductive LogEntry where
  | start
  | endEv (ts : List Token)
  | next (p : ContextParams)
  | newToken (t : Token) (p : ContextParams)
  | contextStart (name : String) (i : Nat)
  | contextEnd (name : String) (r : ContextRange)
  | insertToken (ts : List Token) (i : Int)
  | removeToken (ts : List Token) (i : Int)
  | removeRange (ts : List Token) (start : Int) (off : JsArg)
  | replaceTokenOne (i : Int) (t : Token)
  | replaceTokenRange (start : Int) (off : JsArg) (ts : List Token)
  | replaceRange (start : Int) (off : JsArg) (ts : List Token)
  | composeRUD (results : List OpRet)
  | updateContextsRanges
deriving DecidableEq

/-- The event a log entry belongs to. -/
def LogEntry.eventName : LogEntry → EventName
  | .start => .startE
  | .endEv _ => .endE
  | .next _ => .nextE
  | .newToken _ _ => .newTokenE
  | .contextStart _ _ => .contextStartE
  | .contextEnd _ _ => .contextEndE
  | .insertToken _ _ => .insertTokenE
  | .removeToken _ _ => .removeTokenE
  | .removeRange _ _ _ => .removeRangeE
  | .replaceTokenOne _ _ => .replaceTokenE
  | .replaceTokenRange _ _ _ => .replaceTokenE
  | .replaceRange _ _ _ => .replaceRangeE
  | .composeRUD _ => .composeRUDE
  | .updateContextsRanges => .updateContextsRangesE

/-- A registered state modifier (a `newToken` subscriber installed by
`registerModifier`). -/
structure Modifier where
  id : String
  cond : Option (Token → ContextParams → Bool)
  modifier : Token → ContextParams → JSVal

/-- The state of a default `Tokenizer` (constructed without user event
handlers): its token vector, the registered context checkers in
registration order, the registered modifiers, and the event log. -/
structure Tokenizer where
  tokens : List Token
  contexts : List ContextChecker
  modifiers : List Modifier
  log : List LogEntry

/-- Source `Tokenizer.getContext`: look a context checker up by name. -/
def Tokenizer.getContext (s : Tokenizer) (name : String) : Option ContextChecker :=
  s.contexts.find? (fun c => c.contextName == name)

/-- Source `Tokenizer.inboundIndex`. -/
def Tokenizer.inboundIndex (s : Tokenizer) (i : Int) : Bool :=
  0 ≤ i && i < (s.tokens.length : Int)

/-- One checker's step of `runContextCheck` at the given params: possibly
open a range (dispatching `contextStart`), then - with the possibly new
open range - possibly close it via `setEndOffset` (assigning the
`rangeId`, appending to `ranges`, clearing `openRange`) and dispatch
`contextEnd`. -/
def checkOne (p : ContextParams) (c : ContextChecker) :
    ContextChecker × List LogEntry :=
  let i := p.index
  let st :=
    if c.openRange.isNone && c.checkStart p then
      ({ c with openRange := some i }, [LogEntry.contextStart c.contextName i])
    else (c, ([] : List LogEntry))
  match st.1.openRange with
  | some j =>
    if st.1.checkEnd p then
      let off : Int := (i : Int) - (j : Int) + 1
      let r : ContextRange :=
        ⟨j, off, st.1.contextName,
          st.1.contextName ++ "." ++ toString st.1.ranges.length⟩
      ({ st.1 with ranges := st.1.ranges ++ [r], openRange := none },
        st.2 ++ [LogEntry.contextEnd st.1.contextName r])
    else st
  | none => st

/-- Source `runContextCheck` over the checker list: each checker is stepped in
registration order; the returned entries are the `contextStart`/`contextEnd`
dispatches in order. -/
def scanStep (p : ContextParams) (cs : List ContextChecker) :
    List ContextChecker × List LogEntry :=
  (cs.map (fun c => (checkOne p c).1),
   cs.foldl (fun es c => es ++ (checkOne p c).2) [])

/-- The scan loop of `updateContextsRanges`: `runContextCheck` at every
index of the char vector. -/
def scanFold (chars : List Char) (cs : List ContextChecker) :
    List ContextChecker × List LogEntry :=
  (List.range chars.length).foldl
    (fun acc i =>
      let r := scanStep (ContextParams.make chars i) acc.1
      (r.1, acc.2 ++ r.2))
    (cs, [])

/-- Source `Tokenizer.resetContextsRanges`: clears every checker's `ranges`.  Note
that the source does NOT clear `openRange` here. -/
def resetRangesOnly (cs : List ContextChecker) : List ContextChecker :=
  cs.map (fun c => { c with ranges := [] })

/-- Source `Tokenizer.updateContextsRanges`: reset all ranges, re-scan
`tokens.map(t => t.char)` with `runContextCheck` at every index, then
dispatch the `updateContextsRanges` event (which has no auto-subscribers). -/
def Tokenizer.updateContextsRanges (s : Tokenizer) : Tokenizer :=
  let cs0 := resetRangesOnly s.contexts
  let chars := s.tokens.map (fun t => t.char)
  let r := scanFold chars cs0
  { s with contexts := r.1,
           log := s.log ++ r.2 ++ [LogEntry.updateContextsRanges] }

/-- The six mutating events auto-subscribed to `updateContextsRanges` by
`initializeCoreEvents`. -/
def autoUpdate : EventName → Bool
  | .insertTokenE | .removeTokenE | .removeRangeE
  | .replaceTokenE | .replaceRangeE | .composeRUDE => true
  | _ => false

/-- Source `Tokenizer.dispatch` in the default tokenizer: record the event (all
subscribers of that event run) and, for the six auto-subscribed mutating
events, run `updateContextsRanges`. -/
def Tokenizer.dispatch (s : Tokenizer) (e : LogEntry) : Tokenizer :=
  let s1 := { s with log := s.log ++ [e] }
  if autoUpdate e.eventName then s1.updateContextsRanges else s1

/-- Source `Tokenizer.insertToken(tokens, index, silent)`: only the token types are
validated; the index is passed to `splice` unchecked. -/
def Tokenizer.insertToken (s : Tokenizer) (tvals : List TVal) (index : Int)
    (silent : Bool) : OpRet × Tokenizer :=
  if tvals.all TVal.isTok then
    let ts := extractToks tvals
    let s1 := { s with tokens := (jsSplice s.tokens index 0 ts).2 }
    let s2 := if silent then s1 else s1.dispatch (.insertToken ts index)
    (.flat ts, s2)
  else (.failR "insertToken: invalid token(s).", s)

/-- Source `Tokenizer.removeToken(index, silent)`. -/
def Tokenizer.removeToken (s : Tokenizer) (index : Int) (silent : Bool) :
    OpRet × Tokenizer :=
  if s.inboundIndex index then
    let r := jsSplice s.tokens index 1 []
    let s1 := { s with tokens := r.2 }
    let s2 := if silent then s1 else s1.dispatch (.removeToken r.1 index)
    (.flat r.1, s2)
  else (.failR "removeToken: invalid token index.", s)

/-- Source `Tokenizer.removeRange(startIndex, offset, silent)`: the offset is
replaced by the token-vector length only when `isNaN(offset)` holds, i.e.
only for `undefined` (JS `isNaN(null)` is false, so a `null` offset reaches
`splice` unchanged and deletes nothing). -/
def Tokenizer.removeRange (s : Tokenizer) (start : Int) (off : JsArg)
    (silent : Bool) : OpRet × Tokenizer :=
  let off2 := if !off.isNaNb then off else .num s.tokens.length
  let r := jsSplice s.tokens start off2.toInteger []
  let s1 := { s with tokens := r.2 }
  let s2 := if silent then s1 else s1.dispatch (.removeRange r.1 start off2)
  (.flat r.1, s2)

/-- Source `Tokenizer.replaceToken(index, token, silent)`: dispatches the
`replaceToken` event with `[index, token]`. -/
def Tokenizer.replaceToken (s : Tokenizer) (index : Int) (tv : TVal)
    (silent : Bool) : OpRet × Tokenizer :=
  match tv with
  | .tok t =>
    if s.inboundIndex index then
      let r := jsSplice s.tokens index 1 [t]
      let s1 := { s with tokens := r.2 }
      let s2 := if silent then s1 else s1.dispatch (.replaceTokenOne index t)
      (.flat (r.1 ++ [t]), s2)
    else (.failR "replaceToken: invalid token or index.", s)
  | .notTok => (.failR "replaceToken: invalid token or index.", s)

/-- The offset resolution of `replaceRange`: `offset !== null ? offset :
this.tokens.length`. -/
def resolveReplaceOffset (s : Tokenizer) (off : JsArg) : JsArg :=
  match off with
  | .jsNull => .num s.tokens.length
  | x => x

/-- Source `Tokenizer.replaceRange(startIndex, offset, tokens, silent)`: note that
its non-silent dispatch is the `replaceToken` event (with arguments
`[startIndex, offset, tokens]`), not the `replaceRange` event. -/
def Tokenizer.replaceRange (s : Tokenizer) (start : Int) (off : JsArg)
    (tvals : List TVal) (silent : Bool) : OpRet × Tokenizer :=
  let off2 := resolveReplaceOffset s off
  if s.inboundIndex start && tvals.all TVal.isTok then
    let ts := extractToks tvals
    let r := jsSplice s.tokens start off2.toInteger ts
    let s1 := { s with tokens := r.2 }
    let s2 := if silent then s1
      else s1.dispatch (.replaceTokenRange start off2 ts)
    (.nested r.1 ts, s2)
  else (.failR "replaceRange: invalid tokens or startIndex.", s)

/-- One sub-operation of a `composeRUD` batch. -/
inductive RUD where
  | rInsertToken (tvals : List TVal) (i : Int)
  | rRemoveToken (i : Int)
  | rRemoveRange (start : Int) (off : JsArg)
  | rReplaceToken (i : Int) (tv : TVal)
  | rReplaceRange (start : Int) (off : JsArg) (tvals : List TVal)

/-- Run one sub-operation in silent mode (`composeRUD` appends
`silent = true` to every sub-operation's argument list). -/
def runRUD (s : Tokenizer) : RUD → OpRet × Tokenizer
  | .rInsertToken tv i => s.insertToken tv i true
  | .rRemoveToken i => s.removeToken i true
  | .rRemoveRange a b => s.removeRange a b true
  | .rReplaceToken i tv => s.replaceToken i tv true
  | .rReplaceRange a b tv => s.replaceRange a b tv true

/-- Run the sub-operations of a batch in order, threading the tokenizer. -/
def runRUDs (s : Tokenizer) : List RUD → List OpRet × Tokenizer
  | [] => ([], s)
  | r :: rs =>
    let o := runRUD s r
    let rest := runRUDs o.2 rs
    (o.1 :: rest.1, rest.2)

/-- Source `Tokenizer.composeRUD(RUDs)`: run every sub-operation silently; if every
result is a FAIL record, return a FAIL record with the per-operation
report; otherwise dispatch one `composeRUD` event carrying only the
successful results (the source returns `undefined` then, modelled as
`none`). -/
def Tokenizer.composeRUD (s : Tokenizer) (ruds : List RUD) :
    Option (String × List OpRet) × Tokenizer :=
  let res := runRUDs s ruds
  if res.1.all OpRet.isFail then
    (some ("composeRUD: one or more operations hasnt completed successfully",
           res.1.filter OpRet.isFail), res.2)
  else
    (none, res.2.dispatch (.composeRUD (res.1.filter (fun o => !o.isFail))))

/-- Apply the registered modifiers to a freshly created token (they are the
`newToken` subscribers installed by `registerModifier`): when the condition
is absent or holds, write `token.state[id] = modifier(token, params)`. -/
def applyModifiers (ms : List Modifier) (t : Token) (p : ContextParams) : Token :=
  ms.foldl
    (fun tok m =>
      let can := match m.cond with
        | none => true
        | some c => c tok p
      if can then (tok.setState m.id (m.modifier tok p)).1 else tok)
    t

/-- One iteration of the `tokenize` loop at the enumerated position
`pair = (i, char)`: dispatch `next`, run the context check, append the new
token (running the `newToken` modifiers) and dispatch `newToken`. -/
def tokenizeStep (text : List Char) (st : Tokenizer) (pair : Nat × Char) :
    Tokenizer :=
  let p := ContextParams.make text pair.1
  let st1 := st.dispatch (.next p)
  let r := scanStep p st1.contexts
  let st2 := { st1 with contexts := r.1, log := st1.log ++ r.2 }
  let t1 := applyModifiers st2.modifiers ⟨pair.2, [], none⟩ p
  let st3 := { st2 with tokens := st2.tokens ++ [t1] }
  st3.dispatch (.newToken t1 p)

/-- Source `Tokenizer.tokenize(text)`: clear the tokens, reset the context
ranges, dispatch `start`, then run `tokenizeStep` for every enumerated
character; finally dispatch `end`. -/
def Tokenizer.tokenize (s : Tokenizer) (text : List Char) : Tokenizer :=
  let s0 := { s with tokens := [], contexts := resetRangesOnly s.contexts }
  let s1 := s0.dispatch .start
  let s2 := text.enum.foldl (tokenizeStep text) s1
  s2.dispatch (.endEv s2.tokens)

/-- Source `Tokenizer.registerContextChecker`: FAIL on a duplicate name, else
append a fresh checker (empty ranges, no open range).  The failure is
modelled as `some message`. -/
def Tokenizer.registerContextChecker (s : Tokenizer) (name : String)
    (cs ce : ContextParams → Bool) : Option String × Tokenizer :=
  if (s.getContext name).isSome then
    (some ("context name " ++ name ++ " is already registered."), s)
  else
    (none, { s with contexts := s.contexts ++ [⟨name, cs, ce, none, []⟩] })

/-- Source `Tokenizer.getRangeTokens`: `tokens.slice(startIndex, startIndex + endOffset)`. -/
def Tokenizer.getRangeTokens (s : Tokenizer) (r : ContextRange) : List Token :=
  jsSlice s.tokens (r.startIndex : Int) ((r.startIndex : Int) + r.endOffset)

/-- Source `Tokenizer.getContextRanges`: the ranges of a registered context, or a
FAIL (modelled as `none`) for an unregistered name. -/
def Tokenizer.getContextRanges (s : Tokenizer) (name : String) :
    Option (List ContextRange) :=
  (s.getContext name).map (fun c => c.ranges)

/-- Source `Tokenizer.getText`: concatenate every token's char. -/
def Tokenizer.getText (s : Tokenizer) : String :=
  String.mk (s.tokens.map (fun t => t.char))

/-- A mutating operation invoked with `silent = false` (the subject of the
round-trip claim); `composeRUD` takes its batch. -/
inductive MutOp where
  | mInsertToken (tvals : List TVal) (i : Int)
  | mRemoveToken (i : Int)
  | mRemoveRange (start : Int) (off : JsArg)
  | mReplaceToken (i : Int) (tv : TVal)
  | mReplaceRange (start : Int) (off : JsArg) (tvals : List TVal)
  | mComposeRUD (ruds : List RUD)

/-- Apply a mutating operation with `silent = false`. -/
def applyMutOp (op : MutOp) (s : Tokenizer) : Tokenizer :=
  match op with
  | .mInsertToken tv i => (s.insertToken tv i false).2
  | .mRemoveToken i => (s.removeToken i false).2
  | .mRemoveRange a b => (s.removeRange a b false).2
  | .mReplaceToken i tv => (s.replaceToken i tv false).2
  | .mReplaceRange a b tv => (s.replaceRange a b tv false).2
  | .mComposeRUD ruds => (s.composeRUD ruds).2

/-- A checker with its completed ranges cleared and its open range closed:
the start state of a genuinely from-scratch recomputation. -/
def clearCC (c : ContextChecker) : ContextChecker :=
  { c with ranges := [], openRange := none }

/-- The ranges obtained by recomputing from scratch over a given token
vector: reset all ranges (and open ranges) and run `runContextCheck` over
`ContextParams(tokens.map(t => t.char), i)` for every index `i`. -/
def fromScratchRanges (tokens : List Token) (cs : List ContextChecker) :
    List (List ContextRange) :=
  ((scanFold (tokens.map (fun t => t.char)) (cs.map clearCC)).1).map
    (fun c => c.ranges)

/-- The ranges currently stored in every registered context checker. -/
def storedRanges (s : Tokenizer) : List (List ContextRange) :=
  s.contexts.map (fun c => c.ranges)

/-- The stored ranges agree with a from-scratch recomputation. -/
def consistentState (s : Tokenizer) : Prop :=
  storedRanges s = fromScratchRanges s.tokens s.contexts

/-- Every registered checker currently has no open range. -/
def allOpenNone (s : Tokenizer) : Bool :=
  s.contexts.all (fun c => c.openRange.isNone)

/-- The log entries a state gained over a previous state. -/
def logDelta (old new : Tokenizer) : List LogEntry :=
  new.log.drop old.log.length

/-- The state of a `Bidi` instance from bidi.js.  The three context-check
predicate pairs that bidi.js imports from its `features/...` sibling
modules (which are outside the reviewed sources) are carried as data, as
the prototype's `contextChecks` table does. -/
structure Bidi where
  baseDir : String
  text : Option (List Char)
  tokenizer : Tokenizer
  featuresTags : List (String × List String)
  latinWordCheck : (ContextParams → Bool) × (ContextParams → Bool)
  arabicWordCheck : (ContextParams → Bool) × (ContextParams → Bool)
  arabicSentenceCheck : (ContextParams → Bool) × (ContextParams → Bool)

/-- Source `this.featuresTags.hasOwnProperty(script)`. -/
def Bidi.hasFeatureScript (b : Bidi) (script : String) : Bool :=
  b.featuresTags.any (fun p => p.1 == script)

/-- The registered feature tags of a script (empty when unregistered). -/
def Bidi.tagsOf (b : Bidi) (script : String) : List String :=
  match b.featuresTags.find? (fun p => p.1 == script) with
  | some p => p.2
  | none => []

/-- Source `checkGlyphIndexStatus`: whether the `glyphIndex` modifier is registered
(the source throws when it is not). -/
def Bidi.hasGlyphIndexModifier (b : Bidi) : Bool :=
  b.tokenizer.modifiers.any (fun m => m.id == "glyphIndex")

/-- Source `Bidi.checkContextReady`. -/
def Bidi.checkContextReady (b : Bidi) (name : String) : Bool :=
  (b.tokenizer.getContext name).isSome

/-- Source `applyArabicPresentationForms`: gated on the `arab` script being
registered in `featuresTags`; throws (`none`) when the `glyphIndex`
modifier is missing; otherwise folds the per-range shaper (whose body lives
in a module outside the reviewed sources and is therefore a parameter) over
the captured `arabicWord` ranges. -/
def applyArabicPresentationForms (fPres : Bidi → ContextRange → Bidi)
    (b : Bidi) : Option Bidi :=
  if !b.hasFeatureScript "arab" then some b
  else if !b.hasGlyphIndexModifier then none
  else some (((b.tokenizer.getContextRanges "arabicWord").getD []).foldl fPres b)

/-- Source `applyArabicRequireLigatures`: additionally gated on the `rlig` tag. -/
def applyArabicRequireLigatures (fRlig : Bidi → ContextRange → Bidi)
    (b : Bidi) : Option Bidi :=
  if !b.hasFeatureScript "arab" then some b
  else if !(b.tagsOf "arab").contains "rlig" then some b
  else if !b.hasGlyphIndexModifier then none
  else some (((b.tokenizer.getContextRanges "arabicWord").getD []).foldl fRlig b)

/-- Source `applyLatinLigatures`: gated on the `latn` script and the `liga` tag. -/
def applyLatinLigatures (fLiga : Bidi → ContextRange → Bidi)
    (b : Bidi) : Option Bidi :=
  if !b.hasFeatureScript "latn" then some b
  else if !(b.tagsOf "latn").contains "liga" then some b
  else if !b.hasGlyphIndexModifier then none
  else some (((b.tokenizer.getContextRanges "latinWord").getD []).foldl fLiga b)

/-- Source `reverseArabicSentences`: capture the `arabicSentence` ranges once, then
for each range replace it - via a non-silent `replaceRange` - with its own
tokens in reverse order.  (The captured list is the array reference taken
before the loop; the recomputation triggered by each `replaceRange` rebinds
the checker's `ranges` to a fresh array and so does not affect the loop.) -/
def reverseOneRange (tk : Tokenizer) (r : ContextRange) : Tokenizer :=
  (tk.replaceRange (r.startIndex : Int) (.num r.endOffset)
    ((tk.getRangeTokens r).reverse.map TVal.tok) false).2

/-- The loop of `reverseArabicSentences` over the captured range list. -/
def reverseArabicSentences (b : Bidi) : Bidi :=
  let rs := (b.tokenizer.getContextRanges "arabicSentence").getD []
  { b with tokenizer := rs.foldl reverseOneRange b.tokenizer }

/-- Source `Bidi.applyFeaturesToContexts`: Arabic presentation forms and required
ligatures when `arabicWord` is ready, Latin ligatures when `latinWord` is
ready, and - gated only on the context being registered - Arabic sentence
reversal when `arabicSentence` is ready. -/
def applyFeaturesToContexts (fPres fRlig fLiga : Bidi → ContextRange → Bidi)
    (b : Bidi) : Option Bidi :=
  let step1 : Option Bidi :=
    if b.checkContextReady "arabicWord" then
      (applyArabicPresentationForms fPres b).bind
        (applyArabicRequireLigatures fRlig)
    else some b
  step1.bind fun b1 =>
    let step2 : Option Bidi :=
      if b1.checkContextReady "latinWord" then applyLatinLigatures fLiga b1
      else some b1
    step2.map fun b2 =>
      if b2.checkContextReady "arabicSentence" then reverseArabicSentences b2
      else b2

/-- The private `#tokenizeText`: register the three context checkers (a
duplicate registration FAILs and the failure is ignored) and tokenize the
stored text. -/
def bidiTokenizeText (b : Bidi) : Bidi :=
  let tk1 := (b.tokenizer.registerContextChecker "latinWord"
    b.latinWordCheck.1 b.latinWordCheck.2).2
  let tk2 := (tk1.registerContextChecker "arabicWord"
    b.arabicWordCheck.1 b.arabicWordCheck.2).2
  let tk3 := (tk2.registerContextChecker "arabicSentence"
    b.arabicSentenceCheck.1 b.arabicSentenceCheck.2).2
  { b with tokenizer := tk3.tokenize (b.text.getD []) }

/-- Source `this.text` is falsy: `undefined` (never set) or the empty string. -/
def Bidi.textFalsy (b : Bidi) : Prop :=
  b.text = none ∨ b.text = some []

instance (b : Bidi) : Decidable b.textFalsy := by
  unfold Bidi.textFalsy
  infer_instance

/-- Source `Bidi.processText`: shape when `!this.text || this.text !== text`,
otherwise return the cached state.  Shaping may throw (`none`) inside
`applyFeaturesToContexts`. -/
def processText (fPres fRlig fLiga : Bidi → ContextRange → Bidi)
    (t : List Char) (b : Bidi) : Option Bidi :=
  if b.textFalsy ∨ b.text ≠ some t then
    let b1 := { b with text := some t }
    let b2 := bidiTokenizeText b1
    applyFeaturesToContexts fPres fRlig fLiga b2
  else some b

/-- Source `Bidi.getBidiText`: process the text, then return the concatenated
chars of the token vector. -/
def getBidiText (fPres fRlig fLiga : Bidi → ContextRange → Bidi)
    (t : List Char) (b : Bidi) : Option String :=
  (processText fPres fRlig fLiga t b).map (fun b1 => b1.tokenizer.getText)

/-- A freshly constructed `Bidi` (`new Bidi()` with a default base
direction): empty tokenizer, no features registered. -/
def freshBidi (lc ac sc : (ContextParams → Bool) × (ContextParams → Bool)) :
    Bidi :=
  ⟨"ltr", none, ⟨[], [], [], []⟩, [], lc, ac, sc⟩

/-! ### Basic lemmas about the embedded operations -/

theorem extractToks_map_tok (l : List Token) :
    extractToks (l.map TVal.tok) = l := by
  induction l with
  | nil => rfl
  | cons x xs ih => simp [extractToks] at ih ⊢; exact ih

theorem all_isTok_map_tok (l : List Token) :
    (l.map TVal.tok).all TVal.isTok = true := by
  simp [List.all_map, Function.comp, TVal.isTok]

theorem clampIdx_le (len : Nat) (i : Int) : clampIdx len i ≤ len := by
  unfold clampIdx
  split
  · omega
  · omega

theorem clampIdx_coe (len n : Nat) (h : n ≤ len) :
    clampIdx len (n : Int) = n := by
  unfold clampIdx
  split
  · omega
  · simp; omega

/-- The `clearCC` projection of a checker is untouched by one context-check
step: `checkOne` only moves `openRange` and `ranges`. -/
theorem clearCC_checkOne (p : ContextParams) (c : ContextChecker) :
    clearCC (checkOne p c).1 = clearCC c := by
  unfold checkOne
  rcases c with ⟨nm, cs, ce, op, rs⟩
  dsimp only
  split <;> split <;> (try split) <;> simp [clearCC]

theorem contextName_checkOne (p : ContextParams) (c : ContextChecker) :
    (checkOne p c).1.contextName = c.contextName := by
  have h := congrArg ContextChecker.contextName (clearCC_checkOne p c)
  simpa [clearCC] using h

theorem checkOne_entries (p : ContextParams) (c : ContextChecker) :
    ∀ e ∈ (checkOne p c).2,
      e.eventName = EventName.contextStartE ∨ e.eventName = EventName.contextEndE := by
  unfold checkOne
  rcases c with ⟨nm, cs, ce, op, rs⟩
  dsimp only
  split <;> split <;> (try split) <;> simp [LogEntry.eventName]

theorem scanStep_fst (p : ContextParams) (cs : List ContextChecker) :
    (scanStep p cs).1 = cs.map (fun c => (checkOne p c).1) := rfl

theorem scanStep_clear (p : ContextParams) (cs : List ContextChecker) :
    ((scanStep p cs).1).map clearCC = cs.map clearCC := by
  rw [scanStep_fst, List.map_map]
  exact List.map_congr_left (fun c _ => clearCC_checkOne p c)

theorem scanStep_entries (p : ContextParams) (cs : List ContextChecker) :
    ∀ e ∈ (scanStep p cs).2,
      e.eventName = EventName.contextStartE ∨ e.eventName = EventName.contextEndE := by
  unfold scanStep
  dsimp only
  suffices h : ∀ (acc : List LogEntry),
      (∀ e ∈ acc, e.eventName = EventName.contextStartE ∨
        e.eventName = EventName.contextEndE) →
      ∀ e ∈ cs.foldl (fun es c => es ++ (checkOne p c).2) acc,
        e.eventName = EventName.contextStartE ∨ e.eventName = EventName.contextEndE by
    exact h [] (by simp)
  induction cs with
  | nil => intro acc hacc e he; exact hacc e he
  | cons c cs ih =>
    intro acc hacc e he
    refine ih (acc ++ (checkOne p c).2) ?_ e he
    intro x hx
    rcases List.mem_append.mp hx with h | h
    · exact hacc x h
    · exact checkOne_entries p c x h

/-- First components of a paired fold whose log accumulation does not feed
back into the first component. -/
theorem foldl_pair_fst {α β γ : Type} (l : List γ) (f : α → γ → α)
    (g : α → γ → List β) :
    ∀ (a : α) (es : List β),
      (l.foldl (fun acc i => (f acc.1 i, acc.2 ++ g acc.1 i)) (a, es)).1 =
        l.foldl f a := by
  induction l with
  | nil => intro a es; rfl
  | cons i l ih =>
    intro a es
    simp only [List.foldl_cons]
    exact ih _ _

/-- The context component of a `scanFold` is the plain fold of the per-index
context transformations (the log threading does not feed back). -/
theorem scanFold_fst (chars : List Char) (cs : List ContextChecker) :
    (scanFold chars cs).1 =
      (List.range chars.length).foldl
        (fun acc i => (scanStep (ContextParams.make chars i) acc).1) cs := by
  unfold scanFold
  dsimp only
  exact foldl_pair_fst (List.range chars.length)
    (fun a i => (scanStep (ContextParams.make chars i) a).1)
    (fun a i => (scanStep (ContextParams.make chars i) a).2) cs []

theorem scanFold_clear (chars : List Char) (cs : List ContextChecker) :
    ((scanFold chars cs).1).map clearCC = cs.map clearCC := by
  rw [scanFold_fst]
  generalize List.range chars.length = l
  induction l generalizing cs with
  | nil => rfl
  | cons i l ih =>
    simp only [List.foldl_cons]
    rw [ih, scanStep_clear]

theorem scanFold_entries (chars : List Char) (cs : List ContextChecker) :
    ∀ e ∈ (scanFold chars cs).2,
      e.eventName = EventName.contextStartE ∨ e.eventName = EventName.contextEndE := by
  unfold scanFold
  generalize List.range chars.length = l
  suffices h :
      ∀ (cs1 : List ContextChecker) (es : List LogEntry),
        (∀ e ∈ es, e.eventName = EventName.contextStartE ∨
          e.eventName = EventName.contextEndE) →
        ∀ e ∈ (l.foldl
            (fun acc i =>
              ((scanStep (ContextParams.make chars i) acc.1).1,
                acc.2 ++ (scanStep (ContextParams.make chars i) acc.1).2))
            (cs1, es)).2,
          e.eventName = EventName.contextStartE ∨ e.eventName = EventName.contextEndE by
    exact h cs [] (by simp)
  induction l with
  | nil => intro cs1 es hes e he; exact hes e he
  | cons i l ih =>
    intro cs1 es hes e he
    refine ih _ _ ?_ e he
    intro x hx
    rcases List.mem_append.mp hx with h | h
    · exact hes x h
    · exact scanStep_entries _ _ x h

/-! ### Preservation lemmas for `updateContextsRanges` and `dispatch` -/

theorem updateContextsRanges_tokens (s : Tokenizer) :
    (s.updateContextsRanges).tokens = s.tokens := rfl

theorem updateContextsRanges_contexts (s : Tokenizer) :
    (s.updateContextsRanges).contexts =
      (scanFold (s.tokens.map (fun t => t.char)) (resetRangesOnly s.contexts)).1 := rfl

theorem updateContextsRanges_log (s : Tokenizer) :
    (s.updateContextsRanges).log =
      s.log ++ (scanFold (s.tokens.map (fun t => t.char))
        (resetRangesOnly s.contexts)).2 ++ [LogEntry.updateContextsRanges] := rfl

theorem dispatch_tokens (s : Tokenizer) (e : LogEntry) :
    (s.dispatch e).tokens = s.tokens := by
  unfold Tokenizer.dispatch
  split <;> rfl

theorem dispatch_contexts_nonauto (s : Tokenizer) (e : LogEntry)
    (h : autoUpdate e.eventName = false) :
    (s.dispatch e).contexts = s.contexts := by
  unfold Tokenizer.dispatch
  rw [h]
  rfl

theorem clearCC_resetRangesOnly (cs : List ContextChecker) :
    (resetRangesOnly cs).map clearCC = cs.map clearCC := by
  unfold resetRangesOnly
  rw [List.map_map]
  exact List.map_congr_left (fun c _ => rfl)

/-- With no open range, resetting only the completed ranges is the same as
the fully cleared from-scratch start state. -/
theorem resetRangesOnly_eq_clear (cs : List ContextChecker)
    (h : cs.all (fun c => c.openRange.isNone) = true) :
    resetRangesOnly cs = cs.map clearCC := by
  unfold resetRangesOnly
  refine List.map_congr_left ?_
  intro c hc
  have hone := List.all_eq_true.mp h c hc
  have : c.openRange = none := by
    cases hop : c.openRange with
    | none => rfl
    | some j => rw [hop] at hone; simp at hone
  rw [clearCC, this]

/-- After `updateContextsRanges` on a state with no open ranges, the stored
ranges are exactly a from-scratch recomputation over the current tokens. -/
theorem consistent_updateContextsRanges (s : Tokenizer)
    (h : allOpenNone s = true) :
    consistentState s.updateContextsRanges := by
  unfold consistentState
  have hreset : resetRangesOnly s.contexts = s.contexts.map clearCC :=
    resetRangesOnly_eq_clear s.contexts h
  have hstored :
      storedRanges s.updateContextsRanges =
        ((scanFold (s.tokens.map (fun t => t.char)) (s.contexts.map clearCC)).1).map
          (fun c => c.ranges) := by
    unfold storedRanges
    rw [updateContextsRanges_contexts, hreset]
  have hclear :
      (s.updateContextsRanges).contexts.map clearCC = s.contexts.map clearCC := by
    rw [updateContextsRanges_contexts, scanFold_clear, clearCC_resetRangesOnly]
  have hscratch :
      fromScratchRanges (s.updateContextsRanges).tokens
          (s.updateContextsRanges).contexts =
        ((scanFold (s.tokens.map (fun t => t.char)) (s.contexts.map clearCC)).1).map
          (fun c => c.ranges) := by
    unfold fromScratchRanges
    rw [updateContextsRanges_tokens, hclear]
  rw [hstored, hscratch]

theorem allOpenNone_set_tokens (s : Tokenizer) (ts : List Token)
    (lg : List LogEntry) :
    allOpenNone { s with tokens := ts, log := lg } = allOpenNone s := rfl

/-- A non-silent dispatch of an auto-subscribed mutating event leaves the
tokenizer consistent, provided no checker had an open range. -/
theorem consistent_dispatch_auto (s : Tokenizer) (e : LogEntry)
    (hauto : autoUpdate e.eventName = true) (h : allOpenNone s = true) :
    consistentState (s.dispatch e) := by
  unfold Tokenizer.dispatch
  rw [hauto]
  simp only [if_pos]
  exact consistent_updateContextsRanges _ h

/-! ### Silent-mode sub-operations (used by `composeRUD`) -/

theorem allOpenNone_eq_of_contexts (t s : Tokenizer)
    (h : t.contexts = s.contexts) : allOpenNone t = allOpenNone s := by
  unfold allOpenNone
  rw [h]

instance (s : Tokenizer) : Decidable (consistentState s) := by
  unfold consistentState
  infer_instance

/-- A silent sub-operation never touches the contexts or the log. -/
theorem runRUD_silent_pres (s : Tokenizer) (r : RUD) :
    ((runRUD s r).2).contexts = s.contexts ∧ ((runRUD s r).2).log = s.log := by
  cases r with
  | rInsertToken tv i =>
    by_cases hg : tv.all TVal.isTok = true <;>
      simp [runRUD, Tokenizer.insertToken, hg]
  | rRemoveToken i =>
    by_cases hg : s.inboundIndex i = true <;>
      simp [runRUD, Tokenizer.removeToken, hg]
  | rRemoveRange a b =>
    simp [runRUD, Tokenizer.removeRange]
  | rReplaceToken i tv =>
    cases tv with
    | tok t =>
      by_cases hg : s.inboundIndex i = true <;>
        simp [runRUD, Tokenizer.replaceToken, hg]
    | notTok => simp [runRUD, Tokenizer.replaceToken]
  | rReplaceRange a b tv =>
    by_cases hg : (s.inboundIndex a && tv.all TVal.isTok) = true <;>
      simp [runRUD, Tokenizer.replaceRange, hg]

/-- A failed silent sub-operation leaves the tokenizer unchanged. -/
theorem runRUD_fail_id (s : Tokenizer) (r : RUD)
    (h : ((runRUD s r).1).isFail = true) : (runRUD s r).2 = s := by
  cases r with
  | rInsertToken tv i =>
    by_cases hg : tv.all TVal.isTok = true <;>
      simp [runRUD, Tokenizer.insertToken, hg, OpRet.isFail] at h ⊢
  | rRemoveToken i =>
    by_cases hg : s.inboundIndex i = true <;>
      simp [runRUD, Tokenizer.removeToken, hg, OpRet.isFail] at h ⊢
  | rRemoveRange a b =>
    simp [runRUD, Tokenizer.removeRange, OpRet.isFail] at h
  | rReplaceToken i tv =>
    cases tv with
    | tok t =>
      by_cases hg : s.inboundIndex i = true <;>
        simp [runRUD, Tokenizer.replaceToken, hg, OpRet.isFail] at h ⊢
    | notTok => rfl
  | rReplaceRange a b tv =>
    by_cases hg : (s.inboundIndex a && tv.all TVal.isTok) = true <;>
      simp [runRUD, Tokenizer.replaceRange, hg, OpRet.isFail] at h ⊢

theorem runRUDs_pres (ruds : List RUD) :
    ∀ s : Tokenizer,
      ((runRUDs s ruds).2).contexts = s.contexts ∧
      ((runRUDs s ruds).2).log = s.log := by
  induction ruds with
  | nil => intro s; exact ⟨rfl, rfl⟩
  | cons r rs ih =>
    intro s
    have h1 := runRUD_silent_pres s r
    have h2 := ih (runRUD s r).2
    exact ⟨h2.1.trans h1.1, h2.2.trans h1.2⟩

theorem runRUDs_allFail_id (ruds : List RUD) :
    ∀ s : Tokenizer,
      ((runRUDs s ruds).1).all OpRet.isFail = true → (runRUDs s ruds).2 = s := by
  induction ruds with
  | nil => intro s _; rfl
  | cons r rs ih =>
    intro s h
    have hsplit :
        ((runRUD s r).1).isFail = true ∧
          ((runRUDs (runRUD s r).2 rs).1).all OpRet.isFail = true := by
      have : (runRUDs s (r :: rs)).1 =
          (runRUD s r).1 :: (runRUDs (runRUD s r).2 rs).1 := rfl
      rw [this, List.all_cons, Bool.and_eq_true] at h
      exact h
    have hid := runRUD_fail_id s r hsplit.1
    have htail : (runRUDs s (r :: rs)).2 = (runRUDs (runRUD s r).2 rs).2 := rfl
    rw [htail, ih _ hsplit.2, hid]

/-! ### Claim C1 -/

/-- A convenience constructor for a fresh token. -/
def mkTok (c : Char) : Token := ⟨c, [], none⟩

/-- Claim C1, amended.  For every tokenizer state and every mutating
operation invoked with `silent = false`: provided every registered
checker's `openRange` is null when the operation runs, and - for the
invocations that return a FAIL record and therefore skip their dispatch -
the stored ranges already agree with a from-scratch recomputation, then
after the operation returns, the ranges stored in every registered context
checker are exactly the ranges obtained by recomputing from scratch
(resetting all ranges and open ranges, then running `runContextCheck` over
`ContextParams(tokens.map(t => t.char), i)` for every index `i` of the
current token vector).  Without the open-range proviso the claim fails,
because `resetContextsRanges` does not clear `openRange` (see the
counterexample). -/
theorem c1_contextRanges_roundTrip (s : Tokenizer) (op : MutOp)
    (h1 : allOpenNone s = true) (h2 : consistentState s) :
    consistentState (applyMutOp op s) := by
  cases op with
  | mInsertToken tv i =>
    by_cases hg : tv.all TVal.isTok = true
    · simp only [applyMutOp, Tokenizer.insertToken, hg, if_true,
        Bool.false_eq_true, if_false]
      apply consistent_dispatch_auto
      · rfl
      · exact h1
    · simp only [applyMutOp, Tokenizer.insertToken, hg, if_false]
      exact h2
  | mRemoveToken i =>
    by_cases hg : s.inboundIndex i = true
    · simp only [applyMutOp, Tokenizer.removeToken, hg, if_true,
        Bool.false_eq_true, if_false]
      apply consistent_dispatch_auto
      · rfl
      · exact h1
    · simp only [applyMutOp, Tokenizer.removeToken, hg, if_false]
      exact h2
  | mRemoveRange a b =>
    simp only [applyMutOp, Tokenizer.removeRange, Bool.false_eq_true, if_false]
    apply consistent_dispatch_auto
    · rfl
    · exact h1
  | mReplaceToken i tv =>
    cases tv with
    | tok t =>
      by_cases hg : s.inboundIndex i = true
      · simp only [applyMutOp, Tokenizer.replaceToken, hg, if_true,
          Bool.false_eq_true, if_false]
        apply consistent_dispatch_auto
        · rfl
        · exact h1
      · simp only [applyMutOp, Tokenizer.replaceToken, hg, if_false]
        exact h2
    | notTok => exact h2
  | mReplaceRange a b tv =>
    by_cases hg : (s.inboundIndex a && tv.all TVal.isTok) = true
    · simp only [applyMutOp, Tokenizer.replaceRange, hg, if_true,
        Bool.false_eq_true, if_false]
      apply consistent_dispatch_auto
      · rfl
      · exact h1
    · simp only [applyMutOp, Tokenizer.replaceRange, hg, if_false]
      exact h2
  | mComposeRUD ruds =>
    by_cases hg : ((runRUDs s ruds).1).all OpRet.isFail = true
    · simp only [applyMutOp, Tokenizer.composeRUD, hg, if_true]
      rw [runRUDs_allFail_id ruds s hg]
      exact h2
    · simp only [applyMutOp, Tokenizer.composeRUD, hg, if_false]
      apply consistent_dispatch_auto
      · rfl
      · rw [allOpenNone_eq_of_contexts _ s (runRUDs_pres ruds s).1]
        exact h1

/-- Witness state for C1: one registered checker, nothing open, consistent. -/
def c1WitState : Tokenizer :=
  ⟨[mkTok 'a'], [⟨"w", fun _ => false, fun _ => false, none, []⟩], [], []⟩

theorem c1_contextRanges_roundTrip_witness :
    consistentState
      (applyMutOp (MutOp.mInsertToken [TVal.tok (mkTok 'b')] 1) c1WitState) :=
  c1_contextRanges_roundTrip c1WitState
    (MutOp.mInsertToken [TVal.tok (mkTok 'b')] 1) (by decide) (by decide)

/-- Counterexample state for C1: the checker opens at index 1 and closes at
index 0, and a stale open range (start index 2, as left behind by an
earlier scan) is present. -/
def c1PreState : Tokenizer :=
  ⟨[mkTok 'a', mkTok 'b', mkTok 'c'],
   [⟨"c", fun p => p.index == 1, fun p => p.index == 0, some 2, []⟩], [], []⟩

/-- Claim C1, as stated, is false: after a non-silent `insertToken` on a
state whose checker still has an open range, the stored ranges (computed by
the auto-subscribed `updateContextsRanges`, whose `resetContextsRanges`
does not clear `openRange`) differ from a from-scratch recomputation - and
also from what a second run of `updateContextsRanges` itself would store. -/
theorem c1_counterexample :
    storedRanges
        (applyMutOp (MutOp.mInsertToken [TVal.tok (mkTok 'd')] 3) c1PreState) ≠
      fromScratchRanges
        (applyMutOp (MutOp.mInsertToken [TVal.tok (mkTok 'd')] 3) c1PreState).tokens
        (applyMutOp (MutOp.mInsertToken [TVal.tok (mkTok 'd')] 3) c1PreState).contexts ∧
    storedRanges
        (applyMutOp (MutOp.mInsertToken [TVal.tok (mkTok 'd')] 3) c1PreState) ≠
      storedRanges
        (applyMutOp (MutOp.mInsertToken [TVal.tok (mkTok 'd')] 3)
            c1PreState).updateContextsRanges := by
  exact ⟨by decide, by decide⟩

/-! ### Claim C8: `ContextParams.get` -/

/-- Claim C8.  For every character vector `chars` of length `len`, every
index `0 ≤ i < len` and every offset `o`: if `-i ≤ o ≤ len - 1 - i` then
`ContextParams(chars, i).get(o)` equals `chars[i + o]` (`o = 0` gives the
current item, `o < 0` reaches into the backtrack from its tail, `o > 0`
reaches into the lookahead); for every other offset `get(o)` returns the
absent value `none`. -/
theorem c8_contextParams_get (chars : List Char) (i : Nat)
    (h : i < chars.length) (o : Int) :
    (ContextParams.make chars i).get o =
      if -(i : Int) ≤ o ∧ o ≤ (chars.length : Int) - 1 - i then
        chars[((i : Int) + o).toNat]?
      else none := by
  unfold ContextParams.make ContextParams.get
  dsimp only
  have hbl : (chars.take i).length = i := by
    rw [List.length_take]
    omega
  have hll : (chars.drop (i + 1)).length = chars.length - (i + 1) :=
    List.length_drop _ _
  by_cases h0 : o = 0
  · subst h0
    rw [if_pos rfl, if_pos (by constructor <;> omega)]
    simp
  · rw [if_neg h0]
    by_cases hneg : o < 0 ∧ o.natAbs ≤ (chars.take i).length
    · rw [if_pos hneg]
      have hva : o.natAbs ≤ i := by omega
      have h1 : 1 ≤ o.natAbs := by omega
      rw [if_pos (by constructor <;> omega)]
      rw [hbl]
      rw [List.head?_eq_getElem?]
      rw [List.getElem?_drop]
      rw [List.getElem?_take]
      rw [if_pos (by omega)]
      congr 1
      omega
    · rw [if_neg hneg]
      by_cases hpos : 0 < o ∧ o ≤ ((chars.drop (i + 1)).length : Int)
      · rw [if_pos hpos]
        rw [hll] at hpos
        rw [if_pos (by constructor <;> omega)]
        rw [List.getElem?_drop]
        congr 1
        omega
      · rw [if_neg hpos]
        rw [hbl] at hneg
        rw [hll] at hpos
        rw [if_neg (by omega)]

theorem c8_contextParams_get_witness :
    (ContextParams.make ['a', 'b', 'c'] 1).get 1 = some 'c' ∧
    (ContextParams.make ['a', 'b', 'c'] 1).get (-1) = some 'a' ∧
    (ContextParams.make ['a', 'b', 'c'] 1).get 2 = none := by
  refine ⟨?_, ?_, ?_⟩
  · have h := c8_contextParams_get ['a', 'b', 'c'] 1 (by decide) 1
    simpa using h
  · have h := c8_contextParams_get ['a', 'b', 'c'] 1 (by decide) (-1)
    simpa using h
  · have h := c8_contextParams_get ['a', 'b', 'c'] 1 (by decide) 2
    simpa using h

/-! ### Claim C10: `Token.getState` and falsy values -/

/-- Claim C10.  For every token and state key, `getState` returns `null`
whenever the stored value is falsy - absent, `0`, `false` or the empty
string - so a glyph index of `0` or a flag set to `false` via `setState`
is indistinguishable, through `getState`, from a state entry that was
never written. -/
theorem c10_getState_falsy (t : Token) (k : String)
    (h : ∀ p, t.state.find? (fun q => q.1 == k) = some p → p.2.truthy = false) :
    t.getState k = JSVal.vNull ∧
    (∀ (c : Char) (v : JSVal), v.truthy = false →
      (((Token.mk c [] none).setState k v).1).getState k =
        (Token.mk c [] none).getState k) := by
  constructor
  · unfold Token.getState
    cases hf : t.state.find? (fun q => q.1 == k) with
    | none => rfl
    | some p =>
      dsimp only
      rw [h p hf]
      simp
  · intro c v hv
    unfold Token.setState Token.getState assocSet
    simp [hv]

theorem c10_getState_falsy_witness :
    (Token.mk 'x' [("glyphIndex", JSVal.vNum 0)] none).getState "glyphIndex" =
        JSVal.vNull ∧
    (∀ (c : Char) (v : JSVal), v.truthy = false →
      (((Token.mk c [] none).setState "glyphIndex" v).1).getState "glyphIndex" =
        (Token.mk c [] none).getState "glyphIndex") :=
  c10_getState_falsy (Token.mk 'x' [("glyphIndex", JSVal.vNum 0)] none)
    "glyphIndex" (by decide)

/-! ### Claim C4: `removeRange` with a null offset -/

/-- The three-token vector used to exhibit the `removeRange` offset bug. -/
def c4State : Tokenizer := ⟨[mkTok 'a', mkTok 'b', mkTok 'c'], [], [], []⟩

/-- Claim C4 evaluated at the failing input.  The claim (and the spec's
table row `off=null => to end`) says `removeRange(start, null)` removes the
tokens from `start` through the end and returns them.  The code instead
removes nothing and returns `[]`: the guard `!isNaN(offset)` does not catch
`null` (JS `isNaN(null)` is false), so `splice(start, null)` deletes zero
elements.  The `undefined` offset (an omitted argument) does take the
remove-to-the-end path, which is the behaviour the claim describes. -/
theorem c4_removeRange_null_eval :
    (c4State.removeRange 0 JsArg.jsNull false).1 = OpRet.flat [] ∧
    (c4State.removeRange 0 JsArg.jsNull false).2.tokens = c4State.tokens ∧
    (c4State.removeRange 0 JsArg.undef false).1 = OpRet.flat c4State.tokens ∧
    (c4State.removeRange 0 JsArg.undef false).2.tokens = [] := by
  exact ⟨by decide, by decide, by decide, by decide⟩

/-! ### Claim C5: `insertToken` and out-of-bounds indices -/

/-- The two-token vector used for the C5 counterexample. -/
def c5State : Tokenizer := ⟨[mkTok 'a', mkTok 'b'], [], [], []⟩

/-- Claim C5, as stated, is false: `insertToken` performs no index
validation, so inserting at index 99 into a two-token vector succeeds (the
splice clamps the index and appends at the end) instead of returning a
soft-failure record. -/
theorem c5_counterexample :
    c5State.tokens.length = 2 ∧
    (c5State.insertToken [TVal.tok (mkTok 'x')] 99 false).1 =
      OpRet.flat [mkTok 'x'] ∧
    ((c5State.insertToken [TVal.tok (mkTok 'x')] 99 false).1).isFail = false ∧
    (c5State.insertToken [TVal.tok (mkTok 'x')] 99 false).2.tokens.map
        (fun t => t.char) = ['a', 'b', 'x'] := by
  exact ⟨by decide, by decide, by decide, by decide⟩

/-- Claim C5, amended.  `insertToken` validates only its token inputs: it
returns a FAIL record exactly when some input is not a `Token`; the index -
including any out-of-bounds index - is passed to `splice` unchecked, so the
operation succeeds with the splice clamping the index (an index beyond the
length appends at the end, a negative index counts from the end). -/
theorem c5_insertToken_validation (s : Tokenizer) (tvals : List TVal)
    (i : Int) (silent : Bool) :
    ((s.insertToken tvals i silent).1).isFail = !tvals.all TVal.isTok ∧
    (s.insertToken tvals i silent).2.tokens =
      (if tvals.all TVal.isTok then (jsSplice s.tokens i 0 (extractToks tvals)).2
       else s.tokens) := by
  by_cases hg : tvals.all TVal.isTok = true
  · refine ⟨by simp [Tokenizer.insertToken, hg, OpRet.isFail], ?_⟩
    cases hs : silent <;>
      simp [Tokenizer.insertToken, hg, dispatch_tokens]
  · constructor
    · simp [Tokenizer.insertToken, hg, OpRet.isFail]
    · simp [Tokenizer.insertToken, hg]

/-! ### Log-delta lemmas for the non-silent dispatch path -/

theorem dispatch_log_auto (s : Tokenizer) (e : LogEntry)
    (hauto : autoUpdate e.eventName = true) :
    (s.dispatch e).log =
      s.log ++ e :: ((scanFold (s.tokens.map (fun t => t.char))
        (resetRangesOnly s.contexts)).2 ++ [LogEntry.updateContextsRanges]) := by
  unfold Tokenizer.dispatch
  rw [hauto]
  simp only [if_true]
  rw [updateContextsRanges_log]
  simp [List.append_assoc]

/-- The log entries a non-silent auto-subscribed dispatch adds over a base
state whose log the dispatching state still carries. -/
theorem logDelta_dispatch_auto (s0 s : Tokenizer) (e : LogEntry)
    (hlog : s.log = s0.log) (hauto : autoUpdate e.eventName = true) :
    logDelta s0 (s.dispatch e) =
      e :: ((scanFold (s.tokens.map (fun t => t.char))
        (resetRangesOnly s.contexts)).2 ++ [LogEntry.updateContextsRanges]) := by
  unfold logDelta
  rw [dispatch_log_auto s e hauto, hlog]
  exact List.drop_left _ _

/-! ### Claim C9: `replaceRange` dispatches the `replaceToken` event -/

/-- Claim C9.  For every non-silent `replaceRange(startIndex, offset,
tokens)` call with valid arguments, the event dispatched by the operation
is the `replaceToken` event, with arguments `startIndex`, the resolved
`offset` and `tokens` - not the `replaceRange` event.  Consequently a
handler subscribed via `on("replaceRange", fn)` is never invoked by
`replaceRange` (no entry of the dispatched-events delta belongs to the
`replaceRange` event), while the context ranges are still recomputed
because `updateContextsRanges` is auto-subscribed to `replaceToken` as
well (the delta contains exactly one `updateContextsRanges` run). -/
theorem c9_replaceRange_event (s : Tokenizer) (start : Int) (off : JsArg)
    (tvals : List TVal) (hin : s.inboundIndex start = true)
    (htok : tvals.all TVal.isTok = true) :
    (logDelta s (s.replaceRange start off tvals false).2).head? =
        some (LogEntry.replaceTokenRange start (resolveReplaceOffset s off)
          (extractToks tvals)) ∧
    (∀ e ∈ logDelta s (s.replaceRange start off tvals false).2,
        e.eventName ≠ EventName.replaceRangeE) ∧
    (logDelta s (s.replaceRange start off tvals false).2).countP
        (fun e => e.eventName == EventName.updateContextsRangesE) = 1 := by
  have hguard : (s.inboundIndex start && tvals.all TVal.isTok) = true := by
    rw [hin, htok]; rfl
  have hshape :
      (s.replaceRange start off tvals false).2 =
        Tokenizer.dispatch
          { s with tokens := (jsSplice s.tokens start
              (resolveReplaceOffset s off).toInteger (extractToks tvals)).2 }
          (LogEntry.replaceTokenRange start (resolveReplaceOffset s off)
            (extractToks tvals)) := by
    simp [Tokenizer.replaceRange, hguard]
  have hdelta :
      logDelta s (s.replaceRange start off tvals false).2 =
        LogEntry.replaceTokenRange start (resolveReplaceOffset s off)
            (extractToks tvals) ::
          ((scanFold ((jsSplice s.tokens start
              (resolveReplaceOffset s off).toInteger (extractToks tvals)).2.map
                (fun t => t.char))
            (resetRangesOnly s.contexts)).2 ++ [LogEntry.updateContextsRanges]) := by
    rw [hshape]
    exact logDelta_dispatch_auto s _ _ rfl rfl
  refine ⟨?_, ?_, ?_⟩
  · rw [hdelta]; rfl
  · rw [hdelta]
    intro e he
    rcases List.mem_cons.mp he with h | h
    · subst h; simp [LogEntry.eventName]
    · rcases List.mem_append.mp h with h2 | h2
      · rcases scanFold_entries _ _ e h2 with h3 | h3 <;> simp [h3]
      · rcases List.mem_singleton.mp h2 with rfl
        simp [LogEntry.eventName]
  · rw [hdelta]
    rw [List.countP_cons, List.countP_append]
    have hzero :
        (scanFold ((jsSplice s.tokens start
            (resolveReplaceOffset s off).toInteger (extractToks tvals)).2.map
              (fun t => t.char))
          (resetRangesOnly s.contexts)).2.countP
            (fun e => e.eventName == EventName.updateContextsRangesE) = 0 := by
      rw [List.countP_eq_zero]
      intro e he
      rcases scanFold_entries _ _ e he with h3 | h3 <;> simp [h3]
    rw [hzero]
    simp [LogEntry.eventName]

theorem c9_replaceRange_event_witness :
    ((logDelta c4State ((c4State.replaceRange 1 (JsArg.num 1)
          [TVal.tok (mkTok 'z')] false).2)).head? =
        some (LogEntry.replaceTokenRange 1 (JsArg.num 1) [mkTok 'z']) ∧
      (∀ e ∈ logDelta c4State ((c4State.replaceRange 1 (JsArg.num 1)
          [TVal.tok (mkTok 'z')] false).2),
        e.eventName ≠ EventName.replaceRangeE) ∧
      (logDelta c4State ((c4State.replaceRange 1 (JsArg.num 1)
          [TVal.tok (mkTok 'z')] false).2)).countP
        (fun e => e.eventName == EventName.updateContextsRangesE) = 1) := by
  have h := c9_replaceRange_event c4State 1 (JsArg.num 1)
    [TVal.tok (mkTok 'z')] (by decide) (by decide)
  exact h

/-! ### Claim C3: `composeRUD` aggregation -/

/-- Claim C3.  For every batch of sub-operations passed to `composeRUD`:
each sub-operation is run in silent mode (the silent run contributes no
dispatched event and never touches the context checkers); `composeRUD`
returns a FAIL record (carrying a per-operation report, which in the
all-fail case is the full result list) if and only if every sub-operation
returned a FAIL record; otherwise the successful sub-operations take
effect (the final token vector is the one the silent runs produced) and
exactly one `composeRUD` event is dispatched, carrying only the successful
results, causing exactly one `updateContextsRanges` recomputation for the
whole batch. -/
theorem c3_composeRUD_aggregation (s : Tokenizer) (ruds : List RUD) :
    ((runRUDs s ruds).2.log = s.log ∧
      (runRUDs s ruds).2.contexts = s.contexts) ∧
    (((s.composeRUD ruds).1).isSome ↔
      ((runRUDs s ruds).1).all OpRet.isFail = true) ∧
    (((runRUDs s ruds).1).all OpRet.isFail = true →
      (s.composeRUD ruds).1 =
          some ("composeRUD: one or more operations hasnt completed successfully",
            (runRUDs s ruds).1) ∧
        (s.composeRUD ruds).2 = s) ∧
    (((runRUDs s ruds).1).all OpRet.isFail = false →
      (s.composeRUD ruds).1 = none ∧
      (s.composeRUD ruds).2.tokens = (runRUDs s ruds).2.tokens ∧
      LogEntry.composeRUD (((runRUDs s ruds).1).filter (fun o => !o.isFail)) ∈
        logDelta s (s.composeRUD ruds).2 ∧
      (logDelta s (s.composeRUD ruds).2).countP
          (fun e => e.eventName == EventName.composeRUDE) = 1 ∧
      (logDelta s (s.composeRUD ruds).2).countP
          (fun e => e.eventName == EventName.updateContextsRangesE) = 1 ∧
      ∀ e ∈ logDelta s (s.composeRUD ruds).2,
        e.eventName = EventName.composeRUDE ∨
        e.eventName = EventName.contextStartE ∨
        e.eventName = EventName.contextEndE ∨
        e.eventName = EventName.updateContextsRangesE) := by
  have hpres := runRUDs_pres ruds s
  refine ⟨⟨hpres.2, hpres.1⟩, ?_, ?_, ?_⟩
  all_goals by_cases hg : ((runRUDs s ruds).1).all OpRet.isFail = true
  · simp only [Tokenizer.composeRUD, hg, if_true]
    simp [hg]
  · simp only [Tokenizer.composeRUD, hg, if_false]
    simp [hg]
  · intro _
    constructor
    · simp only [Tokenizer.composeRUD, hg, if_true]
      have hfilter : ((runRUDs s ruds).1).filter OpRet.isFail = (runRUDs s ruds).1 :=
        List.filter_eq_self.mpr (List.all_eq_true.mp hg)
      rw [hfilter]
    · simp only [Tokenizer.composeRUD, hg, if_true]
      exact runRUDs_allFail_id ruds s hg
  · intro hfalse
    rw [hfalse] at hg
    exact absurd rfl hg
  · intro hfalse
    rw [hg] at hfalse
    exact absurd hfalse (by simp)
  · intro _
    have hshape :
        (s.composeRUD ruds).2 =
          Tokenizer.dispatch (runRUDs s ruds).2
            (LogEntry.composeRUD
              (((runRUDs s ruds).1).filter (fun o => !o.isFail))) := by
      simp [Tokenizer.composeRUD, hg]
    have hdelta :
        logDelta s (s.composeRUD ruds).2 =
          LogEntry.composeRUD (((runRUDs s ruds).1).filter (fun o => !o.isFail)) ::
            ((scanFold ((runRUDs s ruds).2.tokens.map (fun t => t.char))
              (resetRangesOnly (runRUDs s ruds).2.contexts)).2 ++
              [LogEntry.updateContextsRanges]) := by
      rw [hshape]
      exact logDelta_dispatch_auto s _ _ hpres.2 rfl
    refine ⟨by simp [Tokenizer.composeRUD, hg], ?_, ?_, ?_, ?_, ?_⟩
    · rw [hshape, dispatch_tokens]
    · rw [hdelta]
      exact List.mem_cons_self _ _
    · rw [hdelta, List.countP_cons, List.countP_append, List.countP_eq_zero.mpr, List.countP_eq_zero.mpr]
      · simp [LogEntry.eventName]
      · intro e he
        rcases List.mem_singleton.mp he with rfl
        simp [LogEntry.eventName]
      · intro e he
        rcases scanFold_entries _ _ e he with h3 | h3 <;> simp [h3]
    · rw [hdelta, List.countP_cons, List.countP_append, List.countP_eq_zero.mpr]
      · simp [LogEntry.eventName]
      · intro e he
        rcases scanFold_entries _ _ e he with h3 | h3 <;> simp [h3]
    · rw [hdelta]
      intro e he
      rcases List.mem_cons.mp he with h | h
      · subst h; left; rfl
      · rcases List.mem_append.mp h with h2 | h2
        · rcases scanFold_entries _ _ e h2 with h3 | h3
          · right; left; exact h3
          · right; right; left; exact h3
        · rcases List.mem_singleton.mp h2 with rfl
          right; right; right; rfl

/-- The composeRUD batch of the spec's concrete scenario: remove the first
token, then insert a fresh token at index 0. -/
def c3Ruds : List RUD :=
  [RUD.rRemoveToken 0, RUD.rInsertToken [TVal.tok (mkTok 'x')] 0]

theorem c3_composeRUD_aggregation_witness :
    ((c4State.composeRUD c3Ruds).1).isSome = false ∧
    (c4State.composeRUD c3Ruds).2.tokens = (runRUDs c4State c3Ruds).2.tokens ∧
    (logDelta c4State (c4State.composeRUD c3Ruds).2).countP
        (fun e => e.eventName == EventName.updateContextsRangesE) = 1 := by
  have h := c3_composeRUD_aggregation c4State c3Ruds
  have hall : ((runRUDs c4State c3Ruds).1).all OpRet.isFail = false := by decide
  have hD := h.2.2.2 hall
  refine ⟨?_, hD.2.1, hD.2.2.2.2.1⟩
  have hB := h.2.1
  rw [hall] at hB
  simp at hB
  simp [hB]

/-! ### Bidi helper lemmas -/

theorem hasFeatureScript_empty (b : Bidi) (hb : b.featuresTags = [])
    (sc : String) : b.hasFeatureScript sc = false := by
  unfold Bidi.hasFeatureScript
  rw [hb]
  rfl

theorem applyArabicPresentationForms_noTags (fP : Bidi → ContextRange → Bidi)
    (b : Bidi) (hb : b.featuresTags = []) :
    applyArabicPresentationForms fP b = some b := by
  unfold applyArabicPresentationForms
  rw [hasFeatureScript_empty b hb]
  rfl

theorem applyArabicRequireLigatures_noTags (fR : Bidi → ContextRange → Bidi)
    (b : Bidi) (hb : b.featuresTags = []) :
    applyArabicRequireLigatures fR b = some b := by
  unfold applyArabicRequireLigatures
  rw [hasFeatureScript_empty b hb]
  rfl

theorem applyLatinLigatures_noTags (fL : Bidi → ContextRange → Bidi)
    (b : Bidi) (hb : b.featuresTags = []) :
    applyLatinLigatures fL b = some b := by
  unfold applyLatinLigatures
  rw [hasFeatureScript_empty b hb]
  rfl

/-- With no feature registered at all, the three shaping passes of
`applyFeaturesToContexts` are skipped by their script gates - but sentence
reversal still runs whenever the `arabicSentence` context is registered. -/
theorem applyFeatures_noTags (fP fR fL : Bidi → ContextRange → Bidi)
    (b : Bidi) (hb : b.featuresTags = []) :
    applyFeaturesToContexts fP fR fL b =
      some (if b.checkContextReady "arabicSentence" then
        reverseArabicSentences b else b) := by
  unfold applyFeaturesToContexts
  have h1 := applyArabicPresentationForms_noTags fP b hb
  have h2 := applyArabicRequireLigatures_noTags fR b hb
  have h3 := applyLatinLigatures_noTags fL b hb
  rw [h1]
  simp [h2, h3]

theorem jsSlice_zero_len (l : List α) : jsSlice l 0 (l.length : Int) = l := by
  unfold jsSlice clampIdx
  have h : ¬((l.length : Int) < 0) := by omega
  simp [h]

theorem jsSplice_all (l items : List α) :
    (jsSplice l 0 (l.length : Int) items).2 = items := by
  unfold jsSplice clampIdx
  have h : ¬((0 : Int) < 0) := by omega
  simp [h]

/-- Reversing a single range that covers the whole token vector reverses
the token vector (an empty vector makes the `replaceRange` guard fail and
leaves everything unchanged, which is also the reversal of nothing). -/
theorem reverseOneRange_full (tk : Tokenizer) (r : ContextRange)
    (h0 : r.startIndex = 0) (hlen : r.endOffset = (tk.tokens.length : Int)) :
    (reverseOneRange tk r).tokens = tk.tokens.reverse := by
  have hrts : tk.getRangeTokens r = tk.tokens := by
    unfold Tokenizer.getRangeTokens
    rw [h0, hlen]
    simpa using jsSlice_zero_len tk.tokens
  unfold reverseOneRange Tokenizer.replaceRange
  rw [hrts]
  by_cases hemp : tk.tokens.length = 0
  · have hnil : tk.tokens = [] := List.length_eq_zero.mp hemp
    have hinb : tk.inboundIndex (r.startIndex : Int) = false := by
      simp [Tokenizer.inboundIndex, h0, hemp]
    simp [hinb, hnil]
  · have hg : (tk.inboundIndex (r.startIndex : Int) &&
        ((tk.tokens.reverse.map TVal.tok).all TVal.isTok)) = true := by
      simp [Tokenizer.inboundIndex, h0, all_isTok_map_tok]
      omega
    simp only [hg, if_true, Bool.false_eq_true, if_false]
    rw [dispatch_tokens]
    have hres : resolveReplaceOffset tk (JsArg.num r.endOffset) =
        JsArg.num (tk.tokens.length : Int) := by
      rw [hlen]; rfl
    rw [hres, h0]
    show (jsSplice tk.tokens ((0 : Nat) : Int)
        (JsArg.toInteger (JsArg.num (tk.tokens.length : Int)))
        (extractToks (tk.tokens.reverse.map TVal.tok))).2 = tk.tokens.reverse
    rw [extractToks_map_tok]
    simpa using jsSplice_all tk.tokens tk.tokens.reverse

/-! ### Claim C2 -/

/-- The identity per-range shaper, used to instantiate the shaper
parameters where they are unreachable. -/
def idShaper : Bidi → ContextRange → Bidi := fun b _ => b

/-- An always-false context predicate pair. -/
def falseCk : (ContextParams → Bool) × (ContextParams → Bool) :=
  (fun _ => false, fun _ => false)

/-- The C2 counterexample state: an `arabicSentence` context registered
with one completed range over the two tokens, and NO feature tags
registered for any script. -/
def c2Bidi : Bidi :=
  ⟨"ltr", none,
    ⟨[mkTok 'a', mkTok 'b'],
      [⟨"arabicSentence", fun _ => false, fun _ => false, none,
        [⟨0, 2, "arabicSentence", "arabicSentence.0"⟩]⟩], [], []⟩,
    [], falseCk, falseCk, falseCk⟩

/-- Claim C2, as stated, is false: with the `arabicSentence` context
registered but NO feature tag requested for the Arabic script
(`featuresTags` is empty), `applyFeaturesToContexts` still reverses the
`arabicSentence` range - the reversal step has no feature-tag gate. -/
theorem c2_counterexample :
    c2Bidi.featuresTags = [] ∧
    (applyFeaturesToContexts idShaper idShaper idShaper c2Bidi).map
        (fun b => b.tokenizer.tokens.map (fun t => t.char)) =
      some ['b', 'a'] ∧
    c2Bidi.tokenizer.tokens.map (fun t => t.char) = ['a', 'b'] := by
  exact ⟨rfl, by decide, by decide⟩

/-- Claim C2, amended.  Arabic sentence reversal is applied whenever the
`arabicSentence` context is registered, with NO feature-tag gate: even
when no feature tag at all has been requested (`featuresTags` empty), the
reversal step runs, and each `arabicSentence` range is replaced - via
`replaceRange` - with its own tokens in reverse order; in particular a
single range covering the whole token vector reverses the whole vector. -/
theorem c2_sentenceReversal_ungated (fP fR fL : Bidi → ContextRange → Bidi)
    (b : Bidi) (hb : b.featuresTags = []) :
    applyFeaturesToContexts fP fR fL b =
      some (if b.checkContextReady "arabicSentence" then
        reverseArabicSentences b else b) ∧
    (∀ r : ContextRange,
      b.tokenizer.getContextRanges "arabicSentence" = some [r] →
      r.startIndex = 0 →
      r.endOffset = (b.tokenizer.tokens.length : Int) →
      (reverseArabicSentences b).tokenizer.tokens =
        b.tokenizer.tokens.reverse) := by
  refine ⟨applyFeatures_noTags fP fR fL b hb, ?_⟩
  intro r hr h0 hlen
  unfold reverseArabicSentences
  rw [hr]
  exact reverseOneRange_full b.tokenizer r h0 hlen

theorem c2_sentenceReversal_ungated_witness :
    (applyFeaturesToContexts idShaper idShaper idShaper c2Bidi =
      some (if c2Bidi.checkContextReady "arabicSentence" then
        reverseArabicSentences c2Bidi else c2Bidi) ∧
    (∀ r : ContextRange,
      c2Bidi.tokenizer.getContextRanges "arabicSentence" = some [r] →
      r.startIndex = 0 →
      r.endOffset = (c2Bidi.tokenizer.tokens.length : Int) →
      (reverseArabicSentences c2Bidi).tokenizer.tokens =
        c2Bidi.tokenizer.tokens.reverse)) :=
  c2_sentenceReversal_ungated idShaper idShaper idShaper c2Bidi rfl

/-! ### Claim C6: the `processText` cache -/

theorem foldl_shaper_text (f : Bidi → ContextRange → Bidi)
    (hf : ∀ b r, (f b r).text = b.text) (rs : List ContextRange) :
    ∀ b : Bidi, (rs.foldl f b).text = b.text := by
  induction rs with
  | nil => intro b; rfl
  | cons r rs ih =>
    intro b
    rw [List.foldl_cons, ih, hf]

theorem reverseArabicSentences_text (b : Bidi) :
    (reverseArabicSentences b).text = b.text := rfl

theorem applyArabicPresentationForms_text (fP : Bidi → ContextRange → Bidi)
    (hfP : ∀ b r, (fP b r).text = b.text) (b b1 : Bidi)
    (h : applyArabicPresentationForms fP b = some b1) : b1.text = b.text := by
  unfold applyArabicPresentationForms at h
  split at h
  · cases h; rfl
  · split at h
    · cases h
    · rw [Option.some_inj] at h
      rw [← h]
      exact foldl_shaper_text fP hfP _ b

theorem applyArabicRequireLigatures_text (fR : Bidi → ContextRange → Bidi)
    (hfR : ∀ b r, (fR b r).text = b.text) (b b1 : Bidi)
    (h : applyArabicRequireLigatures fR b = some b1) : b1.text = b.text := by
  unfold applyArabicRequireLigatures at h
  split at h
  · cases h; rfl
  · split at h
    · cases h; rfl
    · split at h
      · cases h
      · rw [Option.some_inj] at h
        rw [← h]
        exact foldl_shaper_text fR hfR _ b

theorem applyLatinLigatures_text (fL : Bidi → ContextRange → Bidi)
    (hfL : ∀ b r, (fL b r).text = b.text) (b b1 : Bidi)
    (h : applyLatinLigatures fL b = some b1) : b1.text = b.text := by
  unfold applyLatinLigatures at h
  split at h
  · cases h; rfl
  · split at h
    · cases h; rfl
    · split at h
      · cases h
      · rw [Option.some_inj] at h
        rw [← h]
        exact foldl_shaper_text fL hfL _ b

/-- Feature application never changes the stored text, as long as the three
per-range shapers do not (the real shapers only mutate token state;
modelled from the spec: section 4.4 and 4.5 describe the Arabic and Latin
shapers as writing token state and glyph indices only). -/
theorem applyFeaturesToContexts_text (fP fR fL : Bidi → ContextRange → Bidi)
    (hfP : ∀ b r, (fP b r).text = b.text)
    (hfR : ∀ b r, (fR b r).text = b.text)
    (hfL : ∀ b r, (fL b r).text = b.text) (b b2 : Bidi)
    (h : applyFeaturesToContexts fP fR fL b = some b2) : b2.text = b.text := by
  unfold applyFeaturesToContexts at h
  rw [Option.bind_eq_some] at h
  obtain ⟨b1, hb1, h2⟩ := h
  have htext1 : b1.text = b.text := by
    split at hb1
    · rw [Option.bind_eq_some] at hb1
      obtain ⟨bm, hbm, hb1'⟩ := hb1
      have h1 := applyArabicPresentationForms_text fP hfP b bm hbm
      have h2' := applyArabicRequireLigatures_text fR hfR bm b1 hb1'
      rw [h2', h1]
    · cases hb1; rfl
  dsimp only at h2
  rw [Option.map_eq_some'] at h2
  obtain ⟨bL, hbL, hmap⟩ := h2
  have htextL : bL.text = b1.text := by
    split at hbL
    · exact applyLatinLigatures_text fL hfL b1 bL hbL
    · cases hbL; rfl
  have htext2 : b2.text = bL.text := by
    rw [← hmap]
    split
    · exact reverseArabicSentences_text bL
    · rfl
  rw [htext2, htextL, htext1]

theorem bidiTokenizeText_text (b : Bidi) :
    (bidiTokenizeText b).text = b.text := rfl

/-- Claim C6, amended.  For every NON-EMPTY text `t` (and shapers that do
not touch the stored text, which the source shapers never do), calling
`processText(t)` twice in succession performs shaping exactly once: the
second call sees that `t` equals the stored text, does not shape again and
returns the state unchanged.  For the empty string the claim fails: the
cache test `!this.text || this.text !== text` treats the stored empty
string as falsy, so `processText("")` re-registers and re-tokenizes on
every call (see the counterexample). -/
theorem c6_processText_cache (fP fR fL : Bidi → ContextRange → Bidi)
    (hfP : ∀ b r, (fP b r).text = b.text)
    (hfR : ∀ b r, (fR b r).text = b.text)
    (hfL : ∀ b r, (fL b r).text = b.text)
    (t : List Char) (ht : t ≠ []) (b : Bidi) :
    (processText fP fR fL t b).bind (processText fP fR fL t) =
      processText fP fR fL t b := by
  by_cases hcond : b.textFalsy ∨ b.text ≠ some t
  · rw [processText, if_pos hcond]
    cases happ : applyFeaturesToContexts fP fR fL
        (bidiTokenizeText { b with text := some t }) with
    | none => rfl
    | some b3 =>
      have htext : b3.text = some t := by
        have h := applyFeaturesToContexts_text fP fR fL hfP hfR hfL _ _ happ
        rw [h, bidiTokenizeText_text]
      have hnot : ¬(b3.textFalsy ∨ b3.text ≠ some t) := by
        rw [htext]
        unfold Bidi.textFalsy
        rw [htext]
        simp
        exact ht
      show processText fP fR fL t b3 = some b3
      rw [processText, if_neg hnot]
  · rw [processText, if_neg hcond]
    show processText fP fR fL t b = some b
    rw [processText, if_neg hcond]

/-- A fresh Bidi with always-false context predicates, used by the C6
counterexample and witness. -/
def c6Fresh : Bidi := freshBidi falseCk falseCk falseCk

/-- Claim C6, as stated, is false at the empty text: the first
`processText("")` tokenizes once (one `start` event in the log), and a
second `processText("")` tokenizes AGAIN (two `start` events), because the
stored empty string fails the `!this.text` cache test.  `tokenize` is the
only function that dispatches `start`, so the `start`-event count is the
number of `tokenize` invocations. -/
theorem c6_counterexample :
    (processText idShaper idShaper idShaper [] c6Fresh).map
        (fun b => b.tokenizer.log.countP
          (fun e => e.eventName == EventName.startE)) = some 1 ∧
    ((processText idShaper idShaper idShaper [] c6Fresh).bind
        (processText idShaper idShaper idShaper [])).map
        (fun b => b.tokenizer.log.countP
          (fun e => e.eventName == EventName.startE)) = some 2 := by
  exact ⟨by decide, by decide⟩

theorem c6_processText_cache_witness :
    (processText idShaper idShaper idShaper ['a'] c6Fresh).bind
        (processText idShaper idShaper idShaper ['a']) =
      processText idShaper idShaper idShaper ['a'] c6Fresh :=
  c6_processText_cache idShaper idShaper idShaper
    (fun _ _ => rfl) (fun _ _ => rfl) (fun _ _ => rfl)
    ['a'] (by decide) c6Fresh

/-! ### Claim C7: length preservation of the empty pipeline -/

theorem tokenizeStep_tokens (text : List Char) (st : Tokenizer)
    (pair : Nat × Char) :
    (tokenizeStep text st pair).tokens =
      st.tokens ++ [applyModifiers st.modifiers
        ⟨pair.2, [], none⟩ (ContextParams.make text pair.1)] := by
  unfold tokenizeStep
  rw [dispatch_tokens]
  rfl

theorem tokenizeStep_contexts (text : List Char) (st : Tokenizer)
    (pair : Nat × Char) :
    (tokenizeStep text st pair).contexts =
      (scanStep (ContextParams.make text pair.1) st.contexts).1 := by
  unfold tokenizeStep
  rw [dispatch_contexts_nonauto _ _ (by rfl)]
  dsimp only
  rw [dispatch_contexts_nonauto _ _ (by rfl)]

theorem tokenize_fold_length (text : List Char) :
    ∀ (l : List (Nat × Char)) (st : Tokenizer),
      ((l.foldl (tokenizeStep text) st).tokens).length =
        st.tokens.length + l.length := by
  intro l
  induction l with
  | nil => intro st; rfl
  | cons pair l ih =>
    intro st
    rw [List.foldl_cons, ih, tokenizeStep_tokens]
    simp
    omega

/-- Source `tokenize` produces exactly one token per input character. -/
theorem tokenize_tokens_length (s : Tokenizer) (text : List Char) :
    ((s.tokenize text).tokens).length = text.length := by
  unfold Tokenizer.tokenize
  rw [dispatch_tokens, tokenize_fold_length, dispatch_tokens]
  simp [List.enum_length]

/-- A checker is well formed at scan position `n`: every completed range
has a positive end offset and any open range started at or before `n`. -/
def wfChecker (c : ContextChecker) (n : Nat) : Prop :=
  (∀ r ∈ c.ranges, 1 ≤ r.endOffset) ∧ (∀ j, c.openRange = some j → j ≤ n)

theorem checkOne_open_close (p : ContextParams) (nm : String)
    (cs ce : ContextParams → Bool) (rs : List ContextRange) (j : Nat)
    (he : ce p = true) :
    (checkOne p ⟨nm, cs, ce, some j, rs⟩).1 =
      ⟨nm, cs, ce, none,
        rs ++ [⟨j, (p.index : Int) - (j : Int) + 1, nm,
          nm ++ "." ++ toString rs.length⟩]⟩ := by
  simp [checkOne, he]

theorem checkOne_open_stay (p : ContextParams) (nm : String)
    (cs ce : ContextParams → Bool) (rs : List ContextRange) (j : Nat)
    (he : ce p = false) :
    (checkOne p ⟨nm, cs, ce, some j, rs⟩).1 = ⟨nm, cs, ce, some j, rs⟩ := by
  simp [checkOne, he]

theorem checkOne_start_close (p : ContextParams) (nm : String)
    (cs ce : ContextParams → Bool) (rs : List ContextRange)
    (hs : cs p = true) (he : ce p = true) :
    (checkOne p ⟨nm, cs, ce, none, rs⟩).1 =
      ⟨nm, cs, ce, none,
        rs ++ [⟨p.index, (p.index : Int) - (p.index : Int) + 1, nm,
          nm ++ "." ++ toString rs.length⟩]⟩ := by
  simp [checkOne, hs, he]

theorem checkOne_start_stay (p : ContextParams) (nm : String)
    (cs ce : ContextParams → Bool) (rs : List ContextRange)
    (hs : cs p = true) (he : ce p = false) :
    (checkOne p ⟨nm, cs, ce, none, rs⟩).1 = ⟨nm, cs, ce, some p.index, rs⟩ := by
  simp [checkOne, hs, he]

theorem checkOne_nostart (p : ContextParams) (nm : String)
    (cs ce : ContextParams → Bool) (rs : List ContextRange)
    (hs : cs p = false) :
    (checkOne p ⟨nm, cs, ce, none, rs⟩).1 = ⟨nm, cs, ce, none, rs⟩ := by
  simp [checkOne, hs]

theorem wf_append_one (rs : List ContextRange) (r : ContextRange)
    (hr : ∀ x ∈ rs, 1 ≤ x.endOffset) (hnew : 1 ≤ r.endOffset) :
    ∀ x ∈ rs ++ [r], 1 ≤ x.endOffset := by
  intro x hx
  rcases List.mem_append.mp hx with h1 | h1
  · exact hr x h1
  · rcases List.mem_singleton.mp h1 with rfl
    exact hnew

theorem checkOne_wf (p : ContextParams) (c : ContextChecker) (n : Nat)
    (hp : p.index = n) (h : wfChecker c n) :
    wfChecker (checkOne p c).1 (n + 1) := by
  rcases c with ⟨nm, cs, ce, op, rs⟩
  rcases h with ⟨hr, ho⟩
  dsimp only at hr ho
  cases op with
  | none =>
    by_cases hs : cs p = true
    · by_cases he : ce p = true
      · rw [checkOne_start_close p nm cs ce rs hs he]
        refine ⟨wf_append_one rs _ hr (by dsimp only; omega), ?_⟩
        intro j2 hj2
        cases hj2
      · rw [checkOne_start_stay p nm cs ce rs hs (by simpa using he)]
        refine ⟨hr, ?_⟩
        intro j2 hj2
        rw [Option.some_inj] at hj2
        omega
    · rw [checkOne_nostart p nm cs ce rs (by simpa using hs)]
      refine ⟨hr, ?_⟩
      intro j2 hj2
      cases hj2
  | some j =>
    have hjn : j ≤ n := ho j rfl
    by_cases he : ce p = true
    · rw [checkOne_open_close p nm cs ce rs j he]
      refine ⟨wf_append_one rs _ hr (by dsimp only; omega), ?_⟩
      intro j2 hj2
      cases hj2
    · rw [checkOne_open_stay p nm cs ce rs j (by simpa using he)]
      refine ⟨hr, ?_⟩
      intro j2 hj2
      rw [Option.some_inj] at hj2
      omega

theorem scanStep_wf (p : ContextParams) (cs : List ContextChecker) (n : Nat)
    (hp : p.index = n) (h : ∀ c ∈ cs, wfChecker c n) :
    ∀ c ∈ (scanStep p cs).1, wfChecker c (n + 1) := by
  rw [scanStep_fst]
  intro c hc
  rcases List.mem_map.mp hc with ⟨c0, hc0, rfl⟩
  exact checkOne_wf p c0 n hp (h c0 hc0)

theorem tokenize_fold_wf (text : List Char) :
    ∀ (l : List Char) (n : Nat) (st : Tokenizer),
      (∀ c ∈ st.contexts, wfChecker c n) →
      ∀ c ∈ ((List.enumFrom n l).foldl (tokenizeStep text) st).contexts,
        wfChecker c (n + l.length) := by
  intro l
  induction l with
  | nil =>
    intro n st h c hc
    simpa using h c hc
  | cons ch l ih =>
    intro n st h c hc
    rw [List.enumFrom_cons, List.foldl_cons] at hc
    have hstep : ∀ c2 ∈ (tokenizeStep text st (n, ch)).contexts,
        wfChecker c2 (n + 1) := by
      rw [tokenizeStep_contexts]
      exact scanStep_wf _ _ n rfl h
    have hres := ih (n + 1) _ hstep c hc
    have harith : (n + 1) + l.length = n + (ch :: l).length := by
      simp
      omega
    rw [harith] at hres
    exact hres

/-- After `tokenize` on a state with no open ranges, every completed range
of every checker has a positive end offset (the scan closes a range only
at or after the index where it opened). -/
theorem tokenize_wf (s : Tokenizer) (text : List Char)
    (h : ∀ c ∈ s.contexts, c.openRange = none) :
    ∀ c ∈ (s.tokenize text).contexts, ∀ r ∈ c.ranges, 1 ≤ r.endOffset := by
  unfold Tokenizer.tokenize
  rw [dispatch_contexts_nonauto _ _ (by rfl)]
  intro c hc
  have hinit :
      ∀ c2 ∈ (Tokenizer.dispatch
          { s with tokens := [], contexts := resetRangesOnly s.contexts }
          LogEntry.start).contexts, wfChecker c2 0 := by
    rw [dispatch_contexts_nonauto _ _ (by rfl)]
    intro c2 hc2
    rcases List.mem_map.mp hc2 with ⟨c0, hc0, rfl⟩
    refine ⟨?_, ?_⟩
    · intro r hr
      cases hr
    · intro j hj
      dsimp only at hj
      rw [h c0 hc0] at hj
      cases hj
  rw [List.enum_eq_enumFrom] at hc
  exact (tokenize_fold_wf text text 0 _ hinit c hc).1

theorem scanStep_names (p : ContextParams) (cs : List ContextChecker) :
    ((scanStep p cs).1).map (fun c => c.contextName) =
      cs.map (fun c => c.contextName) := by
  rw [scanStep_fst, List.map_map]
  exact List.map_congr_left (fun c _ => contextName_checkOne p c)

theorem tokenize_fold_names (text : List Char) :
    ∀ (l : List (Nat × Char)) (st : Tokenizer),
      ((l.foldl (tokenizeStep text) st).contexts).map (fun c => c.contextName) =
        st.contexts.map (fun c => c.contextName) := by
  intro l
  induction l with
  | nil => intro st; rfl
  | cons pair l ih =>
    intro st
    rw [List.foldl_cons, ih, tokenizeStep_contexts, scanStep_names]

/-- Source `tokenize` preserves the set (and order) of registered context
names. -/
theorem tokenize_names (s : Tokenizer) (text : List Char) :
    ((s.tokenize text).contexts).map (fun c => c.contextName) =
      s.contexts.map (fun c => c.contextName) := by
  unfold Tokenizer.tokenize
  rw [dispatch_contexts_nonauto _ _ (by rfl), tokenize_fold_names,
    dispatch_contexts_nonauto _ _ (by rfl)]
  unfold resetRangesOnly
  rw [List.map_map]
  exact List.map_congr_left (fun c _ => rfl)

theorem getContext_isSome_names (s : Tokenizer) (name : String) :
    (s.getContext name).isSome =
      ((s.contexts.map (fun c => c.contextName)).find?
        (fun x => x == name)).isSome := by
  unfold Tokenizer.getContext
  rw [List.find?_map]
  simp only [Option.isSome_map']
  rfl

/-- One reversal step preserves the token count: the `splice` removes
exactly as many tokens as the `slice` that produced the replacement list,
and a failing guard changes nothing. -/
theorem reverseOneRange_length (tk : Tokenizer) (r : ContextRange)
    (hoff : 0 ≤ r.endOffset) :
    ((reverseOneRange tk r).tokens).length = tk.tokens.length := by
  unfold reverseOneRange Tokenizer.replaceRange
  by_cases hg : (tk.inboundIndex (r.startIndex : Int) &&
      (((tk.getRangeTokens r).reverse.map TVal.tok).all TVal.isTok)) = true
  · simp only [hg, if_true, Bool.false_eq_true, if_false]
    rw [dispatch_tokens]
    have hin : (r.startIndex : Int) < (tk.tokens.length : Int) := by
      have h1 := (Bool.and_eq_true_iff.mp hg).1
      simp [Tokenizer.inboundIndex] at h1
      exact_mod_cast h1
    rw [extractToks_map_tok]
    unfold Tokenizer.getRangeTokens jsSlice jsSplice clampIdx
      resolveReplaceOffset JsArg.toInteger
    have h1 : ¬((r.startIndex : Int) < 0) := by omega
    have h2 : ¬((r.startIndex : Int) + r.endOffset < 0) := by omega
    simp only [h1, if_false, h2]
    simp only [List.length_append, List.length_take, List.length_drop,
      List.length_reverse]
    omega
  · rw [if_neg hg]

theorem reversal_fold_length (rs : List ContextRange) :
    ∀ tk : Tokenizer, (∀ r ∈ rs, 0 ≤ r.endOffset) →
      ((rs.foldl reverseOneRange tk).tokens).length = tk.tokens.length := by
  induction rs with
  | nil => intro tk _; rfl
  | cons r rs ih =>
    intro tk h
    rw [List.foldl_cons, ih _ (fun x hx => h x (List.mem_cons_of_mem r hx)),
      reverseOneRange_length tk r (h r (List.mem_cons_self r rs))]

/-- The three context checkers that `#tokenizeText` registers on a fresh
tokenizer, in registration order. -/
def freshRegContexts (lc ac sc : (ContextParams → Bool) × (ContextParams → Bool)) :
    List ContextChecker :=
  [⟨"latinWord", lc.1, lc.2, none, []⟩,
   ⟨"arabicWord", ac.1, ac.2, none, []⟩,
   ⟨"arabicSentence", sc.1, sc.2, none, []⟩]

/-- The state of a fresh `Bidi` right after `#tokenizeText` on input `t`:
text stored, the three checkers registered, input tokenized. -/
def freshShapedBidi (lc ac sc : (ContextParams → Bool) × (ContextParams → Bool))
    (t : List Char) : Bidi :=
  ⟨"ltr", some t,
    Tokenizer.tokenize ⟨[], freshRegContexts lc ac sc, [], []⟩ t,
    [], lc, ac, sc⟩

theorem bidiTokenizeText_fresh
    (lc ac sc : (ContextParams → Bool) × (ContextParams → Bool))
    (t : List Char) :
    bidiTokenizeText { freshBidi lc ac sc with text := some t } =
      freshShapedBidi lc ac sc t := rfl

/-- Claim C7.  For every input text (as a vector of Unicode scalar values -
the `Array.from` conversion combines surrogate pairs, so a `List Char` of
scalar values is the tokenizer's input domain) and a freshly constructed
`Bidi` with NO shaping features registered, `getBidiText` returns a string
whose length in code points equals the input's length in code points:
tokenization produces one token per scalar value, the three gated shaping
passes are skipped, and the ungated sentence reversal preserves the token
count. -/
theorem c7_getBidiText_length (fP fR fL : Bidi → ContextRange → Bidi)
    (lc ac sc : (ContextParams → Bool) × (ContextParams → Bool))
    (t : List Char) :
    (getBidiText fP fR fL t (freshBidi lc ac sc)).map String.length =
      some t.length := by
  unfold getBidiText processText
  have hcond : (freshBidi lc ac sc).textFalsy ∨
      (freshBidi lc ac sc).text ≠ some t := Or.inl (Or.inl rfl)
  rw [if_pos hcond]
  show Option.map String.length
      (Option.map (fun b1 => b1.tokenizer.getText)
        (applyFeaturesToContexts fP fR fL (freshShapedBidi lc ac sc t))) =
    some t.length
  rw [applyFeatures_noTags _ _ _ _ rfl]
  have hnames :
      (((freshShapedBidi lc ac sc t).tokenizer).contexts).map
        (fun c => c.contextName) = ["latinWord", "arabicWord", "arabicSentence"] := by
    show ((Tokenizer.tokenize ⟨[], freshRegContexts lc ac sc, [], []⟩
      t).contexts).map (fun c => c.contextName) = _
    rw [tokenize_names]
    rfl
  have hready :
      (freshShapedBidi lc ac sc t).checkContextReady "arabicSentence" = true := by
    unfold Bidi.checkContextReady
    rw [getContext_isSome_names]
    rw [hnames]
    rfl
  rw [hready]
  simp only [if_true, Option.map_some']
  congr 1
  have hwf :
      ∀ c ∈ ((freshShapedBidi lc ac sc t).tokenizer).contexts,
        ∀ r ∈ c.ranges, 1 ≤ r.endOffset := by
    refine tokenize_wf _ t ?_
    intro c hc
    fin_cases hc <;> rfl
  have hrs :
      ∀ r ∈ (((freshShapedBidi lc ac sc t).tokenizer).getContextRanges
          "arabicSentence").getD [],
        0 ≤ r.endOffset := by
    cases hg : ((freshShapedBidi lc ac sc t).tokenizer).getContextRanges
        "arabicSentence" with
    | none => intro r hr; cases hr
    | some rs =>
      intro r hr
      unfold Tokenizer.getContextRanges at hg
      rw [Option.map_eq_some'] at hg
      obtain ⟨c, hc, hcr⟩ := hg
      have hmem := List.mem_of_find?_eq_some hc
      have h1 := hwf c hmem r (by rw [hcr]; simpa using hr)
      omega
  show ((reverseArabicSentences (freshShapedBidi lc ac sc t)).tokenizer.getText).length =
    t.length
  unfold reverseArabicSentences Tokenizer.getText
  show ((List.foldl reverseOneRange _ _).tokens.map (fun tok => tok.char)).length = _
  rw [List.length_map]
  rw [reversal_fold_length _ _ hrs]
  exact tokenize_tokens_length _ t
